import Mathlib

/-!
Verification of the BlackKittenProxy connection core against its
natural-language specification.

The Python sources are shallowly embedded: bytes are modelled as `List Nat`
(each element a byte value), Python strings as `List Char`, Python `dict`
insertion order as association lists, and the nondeterminism of
`random.randrange` as an explicit seed stream `Nat → Nat`.  Loops that Python
writes with `while` are embedded as structural recursion on an explicit fuel
argument; every wrapper supplies fuel that provably suffices (each iteration
consumes at least one list element), so the fuel versions compute exactly the
Python loops.
-/

namespace BlackKittenProxy

/-! ## Fragmenter (src/connection.py, `_handle_initial_tls_data` and
`_extract_sni_position`) -/

/-- Big-endian two-byte encoding, as Python's `n.to_bytes(2, "big")` for
`n < 65536` (every caller passes a fragment-payload length, which is at most
the 2048 bytes read from the client). -/
def toBytes2 (n : Nat) : List Nat :=
  [n / 256, n % 256]

/-- A forged TLS record: `hdr + len(payload).to_bytes(2, "big") + payload`
with `hdr = bytes.fromhex("160304")` (connection.py line 237). -/
def mkRecord (payload : List Nat) : List Nat :=
  0x16 :: 0x03 :: 0x04 :: (toBytes2 payload.length ++ payload)

/-- Python `data.find(b"\x00\x00")`: index of the first two consecutive zero
bytes, `none` when absent. -/
def findPair00 : List Nat → Option Nat
  | a :: b :: rest =>
      if a = 0 ∧ b = 0 then some 0 else (findPair00 (b :: rest)).map (· + 1)
  | _ => none

/-- Python `int.from_bytes(data[i:i+2], "big")` for a two-byte slice fully
inside the list. -/
def be2At (data : List Nat) (i : Nat) : Nat :=
  256 * data.getD i 0 + data.getD (i + 1) 0

/-- The scanning loop of `_extract_sni_position` (connection.py lines
190-202): repeatedly `data.find(b"\x00\x00", start)`; while the hit satisfies
`pos + 9 <= len(data)`, read `ext_len` at `pos+2`, `list_len` at `pos+4`,
`name_len` at `pos+7`, and accept when `ext_len - list_len == 2` and
`list_len - name_len == 3`, returning `(pos + 9, pos + 9 + name_len)`;
otherwise rescan from `pos + 1`.  Fuel bounds the iteration count; the
wrapper passes `data.length + 1`, which suffices because `start` grows by at
least one per iteration and iterating requires `start ≤ data.length - 9`. -/
def extractSniGo : Nat → List Nat → Nat → Option (Nat × Nat)
  | 0, _, _ => none
  | fuel + 1, data, start =>
      match findPair00 (data.drop start) with
      | none => none
      | some p =>
          let pos := start + p
          if pos + 9 ≤ data.length then
            let extLen := be2At data (pos + 2)
            let listLen := be2At data (pos + 4)
            let nameLen := be2At data (pos + 7)
            if extLen = listLen + 2 ∧ listLen = nameLen + 3 then
              some (pos + 9, pos + 9 + nameLen)
            else
              extractSniGo fuel data (pos + 1)
          else none

/-- `_extract_sni_position(data)`: `some (sni_start, sni_end)` or `none`. -/
def extractSniPosition (data : List Nat) : Option (Nat × Nat) :=
  extractSniGo (data.length + 1) data 0

/-- The `split` / `split-jitter` framing loop (connection.py lines 258-264):
fixed 32-byte payload records, the last one possibly shorter.  Fuel is the
remaining length; the wrapper passes `data.length`. -/
def fragSplitGo : Nat → List Nat → List (List Nat)
  | 0, _ => []
  | _, [] => []
  | fuel + 1, data => mkRecord (data.take 32) :: fragSplitGo fuel (data.drop 32)

/-- The `split` method: records of fixed 32-byte payloads. -/
def fragSplit (data : List Nat) : List (List Nat) :=
  fragSplitGo data.length data

/-- The `sni` method (connection.py lines 243-257): when
`_extract_sni_position` finds `(s, e)`, emit four records wrapping
`data[:s]`, `sni[:mid]`, `sni[mid:]`, `data[e:]` where `sni = data[s:e]` and
`mid = (len(sni) + 1) // 2`; when it finds nothing, the method is reassigned
to `"split"`. -/
def fragSni (data : List Nat) : List (List Nat) :=
  match extractSniPosition data with
  | some (s, e) =>
      let pre := data.take s
      let sni := (data.drop s).take (e - s)
      let post := data.drop e
      let mid := (sni.length + 1) / 2
      [mkRecord pre, mkRecord (sni.take mid), mkRecord (sni.drop mid),
        mkRecord post]
  | none => fragSplit data

/-- The random-chunk loop (connection.py lines 271-276): while bytes remain,
draw `n = randrange(1, len(data) + 1)` and wrap the first `n` bytes.
`randrange(1, len + 1)` always yields a value in `[1, len]`; the draw with
seed `rs i` is represented as `rs i % len + 1`, so quantifying over `rs`
ranges over every possible sequence of draws.  Returns the emitted records
together with the leftover of the rebound `data` variable (always empty once
the loop exits on nonempty input).  Fuel: each iteration consumes at least
one byte, so `data.length` suffices. -/
def fragRandomGo : Nat → Nat → (Nat → Nat) → List Nat → List (List Nat) × List Nat
  | 0, _, _, data => ([], data)
  | _, _, _, [] => ([], [])
  | fuel + 1, i, rs, data =>
      let n := rs i % data.length + 1
      let rest := fragRandomGo fuel (i + 1) rs (data.drop n)
      (mkRecord (data.take n) :: rest.1, rest.2)

/-- The fallback branch for methods outside `{"sni","split","split-jitter"}`
(connection.py lines 265-276), i.e. `random`: if `data` holds a zero byte at
index `i`, first emit one record covering `data[:i+1]` and drop that prefix,
then run the random-chunk loop. -/
def fragRandom (data : List Nat) (rs : Nat → Nat) : List (List Nat) × List Nat :=
  match data.findIdx? (fun b => b == 0) with
  | some i =>
      let rest := data.drop (i + 1)
      let r := fragRandomGo rest.length 0 rs rest
      (mkRecord (data.take (i + 1)) :: r.1, r.2)
  | none => fragRandomGo data.length 0 rs data

/-- The four fragmentation methods of `Config.fragment_method`. -/
inductive FragMethod
  | random
  | sni
  | split
  | splitJitter
deriving DecidableEq

/-- The fragment-building block of `_handle_initial_tls_data` (connection.py
lines 236-276): the produced `parts` list together with the final value of
the (possibly rebound) `data` variable. -/
def fragment : FragMethod → List Nat → (Nat → Nat) → List (List Nat) × List Nat
  | .sni, data, _ => (fragSni data, data)
  | .split, data, _ => (fragSplit data, data)
  | .splitJitter, data, _ => (fragSplit data, data)
  | .random, data, rs => fragRandom data rs

/-- The byte sequence written to the origin by `_handle_initial_tls_data`
for a blocked connection (connection.py lines 278-297): when `parts` is
empty, `head + data` (with `data` its final, possibly rebound value) is sent
unmodified; otherwise the concatenation of the parts (`split-jitter` writes
them one by one with a sleep in between, the others in a single write — the
byte sequence is the same). -/
def initialTlsSent (m : FragMethod) (head data : List Nat) (rs : Nat → Nat) :
    List Nat :=
  let r := fragment m data rs
  if r.1.isEmpty then head ++ r.2 else r.1.flatten

/-- Every fragmenter output is characterised by its payload list: the parts
are exactly `mkRecord` of payloads, the payloads concatenate to the input,
and each payload is no longer than the input. -/
def PayloadSpec (parts : List (List Nat)) (data : List Nat) : Prop :=
  ∃ pls : List (List Nat), parts = pls.map mkRecord ∧ pls.flatten = data ∧
    ∀ pl ∈ pls, pl.length ≤ data.length

/-! ## RuleEngine (src/rules.py) -/

/-- `RuleEngine._match` (rules.py lines 10-15): empty patterns never match;
a pattern starting with `"*."` matches iff the domain ends with
`pattern[1:]`; otherwise a pattern matches iff it equals the domain or the
domain ends with `"." + pattern`.  Python strings are `List Char`. -/
def ruleMatch (pattern domain : List Char) : Bool :=
  if pattern.isEmpty then false
  else if ['*', '.'].isPrefixOf pattern then (pattern.drop 1).isSuffixOf domain
  else domain == pattern || ('.' :: pattern).isSuffixOf domain

/-- One entry of the rules list: `{"pattern": ..., "action": ...,
"fragment_method": ...}` (absent keys already defaulted as in
`RuleEngine.decide`: pattern `""`, action `"auto"`, method `None`). -/
structure Rule where
  pattern : List Char
  action : List Char
  fragmentMethod : Option (List Char)

/-- The iteration of `RuleEngine.decide` (rules.py lines 19-31) over the
rules, with the domain already lowercased: on the first rule whose
lowercased pattern matches, translate the action (`bypass → some false`,
`force → some true`, otherwise `none`) and return it with the lowercased
method (`None` or `""` methods become `none`); if no rule matches, return
`(none, none)`. -/
def ruleDecideGo : List Rule → List Char → Option Bool × Option (List Char)
  | [], _ => (none, none)
  | r :: rest, d =>
      let pattern := r.pattern.map Char.toLower
      if ruleMatch pattern d then
        let action := r.action.map Char.toLower
        let method : Option (List Char) :=
          match r.fragmentMethod with
          | none => none
          | some m => if m.isEmpty then none else some (m.map Char.toLower)
        if action = "bypass".toList then (some false, method)
        else if action = "force".toList then (some true, method)
        else (none, method)
      else ruleDecideGo rest d

/-- `RuleEngine.decide(domain)`: lowercase the domain once, then iterate. -/
def ruleDecide (rules : List Rule) (domain : List Char) :
    Option Bool × Option (List Char) :=
  ruleDecideGo rules (domain.map Char.toLower)

/-! ## FileBlacklistManager (src/blacklist.py) -/

/-- Python `str.strip()`, restricted to the ASCII whitespace that occurs in
blacklist files. -/
def pyStrip (s : List Char) : List Char :=
  ((s.dropWhile Char.isWhitespace).reverse.dropWhile Char.isWhitespace).reverse

/-- Python `s.replace("www.", "")`: remove every left-to-right,
non-overlapping occurrence of `"www."`, continuing the scan after each
removal — this removes `www.` anywhere in the string, not only as a
prefix.  Fuel: each step consumes at least one character, so `s.length`
suffices. -/
def replaceWWWGo : Nat → List Char → List Char
  | 0, s => s
  | _, [] => []
  | fuel + 1, c :: rest =>
      if ['w', 'w', 'w', '.'].isPrefixOf (c :: rest) then
        replaceWWWGo fuel ((c :: rest).drop 4)
      else c :: replaceWWWGo fuel rest

/-- Python `s.replace("www.", "")`. -/
def replaceWWW (s : List Char) : List Char :=
  replaceWWWGo s.length s

/-- `FileBlacklistManager.load_blacklist` (blacklist.py lines 20-30) over
the lines of the backing file: strip each line, skip stripped lines shorter
than 2 characters or starting with `#`, then lowercase and remove `www.`
occurrences; membership in the resulting Python `set` is modelled as list
membership. -/
def loadBlacklist (lines : List (List Char)) : List (List Char) :=
  lines.filterMap (fun line =>
    let s := pyStrip line
    if s.length < 2 then none
    else if s.headD ' ' = '#' then none
    else some (replaceWWW (s.map Char.toLower)))

/-- `FileBlacklistManager.is_blocked` (blacklist.py lines 32-44) in
`strict` matching mode: `d = domain.replace("www.", "")` — note the query
is NOT lowercased — then exact membership of `d`, then for
`parts = d.split(".")` and each `i` in `range(1, len(parts))`, membership
of `".".join(parts[i:])`, first hit winning. -/
def isBlockedStrict (bset : List (List Char)) (domain : List Char) : Bool :=
  let d := replaceWWW domain
  if bset.contains d then true
  else
    let parts := d.splitOn '.'
    (List.range' 1 (parts.length - 1)).any
      (fun i => bset.contains (List.intercalate ['.'] (parts.drop i)))

/-- Modelled from the claim's words, for comparison only: the claim's
normalisation of the queried domain (lowercased, a single leading `www.`
prefix stripped). -/
def claimNormalise (domain : List Char) : List Char :=
  let l := domain.map Char.toLower
  if ['w', 'w', 'w', '.'].isPrefixOf l then l.drop 4 else l

/-! ## AutoBlacklistManager (src/blacklist.py lines 50-89) -/

/-- Python substring containment `sub in s`. -/
def listInfix (sub : List Char) : List Char → Bool
  | [] => sub.isEmpty
  | c :: rest => sub.isPrefixOf (c :: rest) || listInfix sub rest

/-- The reason string tested by `check_domain`. -/
def handshakeMsg : List Char := "handshake operation timed out".toList

/-- The observable outcome of the out-of-band HTTPS probe inside
`AutoBlacklistManager.check_domain`: success, a `URLError` carrying
`str(e.reason)`, or any other exception. -/
inductive ProbeOutcome
  | success
  | urlError (reason : List Char)
  | otherError
deriving DecidableEq

/-- The mutable state of an `AutoBlacklistManager`: the in-memory blocked
and whitelist sets (Python sets modelled as lists with `contains`
membership) and the domain lines appended to the backing blacklist file
(the code swallows append failures; the append is modelled as
succeeding). -/
structure AutoState where
  blockedSet : List (List Char)
  whitelistSet : List (List Char)
  fileAppends : List (List Char)
deriving DecidableEq

/-- `AutoBlacklistManager.is_blocked` (blacklist.py lines 56-57). -/
def autoIsBlocked (st : AutoState) (domain : List Char) : Bool :=
  st.blockedSet.contains domain

/-- The probe-and-classify part of `check_domain` (blacklist.py lines
63-89): on success add the domain to the whitelist set; on `URLError`
whose `str(e.reason)` contains `"handshake operation timed out"`, add it
to the blocked set and append it to the backing file, while a `URLError`
without that reason falls through the handler with no action at all; on
any other exception add it to the whitelist set.  The returned `Bool`
records that the probe ran. -/
def probeUpdate (st : AutoState) (domain : List Char) :
    ProbeOutcome → AutoState × Bool
  | .success =>
      (AutoState.mk st.blockedSet (domain :: st.whitelistSet)
        st.fileAppends, true)
  | .urlError reason =>
      if listInfix handshakeMsg reason then
        (AutoState.mk (domain :: st.blockedSet) st.whitelistSet
          (st.fileAppends ++ [domain]), true)
      else (st, true)
  | .otherError =>
      (AutoState.mk st.blockedSet (domain :: st.whitelistSet)
        st.fileAppends, true)

/-- `AutoBlacklistManager.check_domain` (blacklist.py lines 59-89): if the
decoded domain is already in the blocked set or the whitelist set, return
immediately without probing; otherwise run the probe and classify. -/
def checkDomain (st : AutoState) (domain : List Char)
    (outcome : ProbeOutcome) : AutoState × Bool :=
  if st.blockedSet.contains domain || st.whitelistSet.contains domain then
    (st, false)
  else probeUpdate st domain outcome

/-- A fresh `AutoBlacklistManager` starts with both sets empty. -/
def initialAutoState : AutoState := ⟨[], [], []⟩

/-- A sequence of `check_domain` calls with their probe outcomes. -/
def runChecks (st : AutoState) (steps : List (List Char × ProbeOutcome)) :
    AutoState :=
  steps.foldl (fun s p => (checkDomain s p.1 p.2).1) st

/-- The blocked set and the whitelist set share no domain. -/
def AutoDisjoint (st : AutoState) : Prop :=
  ∀ d : List Char, ¬(d ∈ st.blockedSet ∧ d ∈ st.whitelistSet)

/-! ## DNSCache (src/dns_cache.py) -/

/-- One entry of the `DNSCache` dict: the `"host:port"` key, the stored
expiry (monotonic seconds, modelled as `Int`), and the `getaddrinfo`
result (address tuples abstracted as `Nat` tokens). -/
structure DnsEntry where
  key : List Char
  expiry : Int
  addrs : List Nat
deriving DecidableEq

/-- The Python dict `self._cache`, as its insertion-ordered entry list:
Python dicts preserve insertion order, `next(iter(d))` is the
first-inserted surviving key, and assigning to an existing key updates its
value in place, keeping its position. -/
abbrev DnsCacheState := List DnsEntry

/-- Python `self._cache.get(key)`. -/
def dnsGet (c : DnsCacheState) (k : List Char) : Option (Int × List Nat) :=
  (c.find? (fun e => e.key == k)).map (fun e => (e.expiry, e.addrs))

/-- Python `self._cache[key] = (exp, addrs)`: update in place when the key
is present, otherwise append at the end. -/
def dnsSet (c : DnsCacheState) (k : List Char) (exp : Int)
    (addrs : List Nat) : DnsCacheState :=
  if c.any (fun e => e.key == k) then
    c.map (fun e => if e.key == k then DnsEntry.mk k exp addrs else e)
  else c ++ [DnsEntry.mk k exp addrs]

/-- The fall-through path of `resolve` (dns_cache.py lines 23-28): perform
the `getaddrinfo` (its result is the input `fresh`), pop the
first-inserted entry when `len(self._cache) >= self.max_entries`, store
`(now + self.ttl, addrs)` and return the fresh list. -/
def dnsMissPath (c : DnsCacheState) (maxEntries : Nat) (ttl now : Int)
    (k : List Char) (fresh : List Nat) : List Nat × DnsCacheState × Bool :=
  (fresh, dnsSet (if maxEntries ≤ c.length then c.drop 1 else c) k
    (now + ttl) fresh, false)

/-- `DNSCache.resolve` (dns_cache.py lines 17-28), with the monotonic-clock
reading `now` and the resolver result `fresh` as explicit inputs: when the
key is cached and `entry[0] > now`, return the cached list unchanged;
otherwise resolve, evict, insert.  The final `Bool` records whether the
cached list was returned. -/
def dnsResolve (c : DnsCacheState) (maxEntries : Nat) (ttl now : Int)
    (k : List Char) (fresh : List Nat) : List Nat × DnsCacheState × Bool :=
  match dnsGet c k with
  | some (exp, addrs) =>
      if now < exp then (addrs, c, true)
      else dnsMissPath c maxEntries ttl now k fresh
  | none => dnsMissPath c maxEntries ttl now k fresh

/-! ## Connection counters (src/connection.py, `handle_connection`,
`_handle_https_connection`, `_handle_http_connection`,
`_handle_initial_tls_data`, `_handle_connection_error`) -/

/-- The four connection counters of `Statistics` (src/stats.py lines
11-35); all are only ever incremented by 1. -/
structure Counters where
  total : Nat
  allowed : Nat
  blocked : Nat
  errors : Nat
deriving DecidableEq

/-- Counters at proxy start; threading a fresh `Counters` through one
connection's handling yields exactly that connection's increments. -/
def zeroCounters : Counters := ⟨0, 0, 0, 0⟩

/-- `_handle_connection_error` (connection.py lines 371-398): increments
`total_connections` and `errors_connections`. -/
def errorCounters (st : Counters) : Counters :=
  { st with total := st.total + 1, errors := st.errors + 1 }

/-- The outcome parameters of one CONNECT-path connection whose first
chunk parsed successfully: whether the origin connect (under
`connect_timeout`) succeeded, whether the `200 Connection Established`
write back to the client succeeded, whether the two initial TLS reads
(`head` and `data`, connection.py lines 206-207) both succeeded, the
fragmentation decision (blacklist and rules, lines 215-221), and whether
the write of the initial TLS bytes to the origin succeeded. -/
structure HttpsOutcomes where
  connectOk : Bool
  establishedOk : Bool
  tlsReadOk : Bool
  shouldFragment : Bool
  writeOk : Bool

/-- Counter effect of `_handle_initial_tls_data` (connection.py lines
204-299): a failed head/data read logs and returns with no counter
touched (lines 208-213); otherwise `total` plus exactly one of
`allowed`/`blocked` is incremented (lines 224-225 and 233-234) BEFORE the
write to the origin, whose failure raises out of the coroutine — the
returned flag records that raise. -/
def tlsDataCounters (o : HttpsOutcomes) (st : Counters) : Counters × Bool :=
  if !o.tlsReadOk then (st, false)
  else if !o.shouldFragment then
    ({ st with total := st.total + 1, allowed := st.allowed + 1 }, !o.writeOk)
  else
    ({ st with total := st.total + 1, blocked := st.blocked + 1 }, !o.writeOk)

/-- Counter effect of the CONNECT path under `handle_connection`'s
exception handler (connection.py lines 82-88 and 124-142): a connect
failure runs `_handle_connection_error` directly (line 135); an exception
from the `established` write or from `_handle_initial_tls_data`'s origin
write propagates to `handle_connection`'s `except`, which also runs
`_handle_connection_error`; `_run_pipes` gathers its children with
`return_exceptions=True` and touches no counter. -/
def httpsCounters (o : HttpsOutcomes) (st : Counters) : Counters :=
  if !o.connectOk then errorCounters st
  else if !o.establishedOk then errorCounters st
  else
    let r := tlsDataCounters o st
    if r.2 then errorCounters r.1 else r.1

/-- Counter effect of `_handle_http_connection` (connection.py lines
144-159): connect failure runs the error path (line 151); a failing origin
write raises to `handle_connection`'s `except` before the increments of
lines 156-157; otherwise `total` and `allowed` are incremented. -/
def httpCounters (connectOk writeOk : Bool) (st : Counters) : Counters :=
  if !connectOk then errorCounters st
  else if !writeOk then errorCounters st
  else { st with total := st.total + 1, allowed := st.allowed + 1 }

/-! ## Relay pipes and per-connection traffic (src/connection.py,
`_pipe` and `ConnectionInfo`) -/

/-- The `traffic_in`/`traffic_out` counters of a `ConnectionInfo`
(connection.py lines 17-26), as later reported in the access-log
record. -/
structure ConnInfo where
  trafficIn : Nat
  trafficOut : Nat
deriving DecidableEq

/-- The global `Statistics` byte counters (src/stats.py lines 15-16). -/
structure TrafficStats where
  trafficIn : Nat
  trafficOut : Nat
deriving DecidableEq

/-- `Statistics.update_traffic` (src/stats.py lines 37-39). -/
def updateTraffic (s : TrafficStats) (incoming outgoing : Nat) :
    TrafficStats :=
  ⟨s.trafficIn + incoming, s.trafficOut + outgoing⟩

/-- `_pipe` (connection.py lines 325-369): relay `chunks` from reader to
writer, accumulating `local_vol`.  The pipe-local variable `conn_info` is
initialised to `None` and never rebound (lines 334-338 are vestigial), so
in the `finally` block only the global statistics receive `local_vol`;
the `if conn_info:` updates of the per-connection counters are dead code.
`info` is the `ConnectionInfo` of the pipe's connection, returned as the
pipe leaves it. -/
def pipe (chunks : List (List Nat)) (isOut : Bool) (stats : TrafficStats)
    (info : ConnInfo) : TrafficStats × ConnInfo :=
  let localVol := (chunks.map List.length).sum
  let localConnInfo : Option ConnInfo := none
  if isOut then
    (updateTraffic stats 0 localVol,
      match localConnInfo with
      | some _ => ⟨info.trafficIn, info.trafficOut + localVol⟩
      | none => info)
  else
    (updateTraffic stats localVol 0,
      match localConnInfo with
      | some _ => ⟨info.trafficIn + localVol, info.trafficOut⟩
      | none => info)

/-! ## Theorems -/

/-! ### Structural facts about the fragmenters -/

theorem mkRecord_drop_five (pl : List Nat) : (mkRecord pl).drop 5 = pl := by
  simp [mkRecord, toBytes2]

theorem payloadSpec_nil : PayloadSpec [] [] :=
  ⟨[], rfl, rfl, by simp⟩

theorem fragSplitGo_payloads (fuel : Nat) :
    ∀ l : List Nat, l.length ≤ fuel → PayloadSpec (fragSplitGo fuel l) l := by
  induction fuel with
  | zero =>
      intro l hl
      have : l = [] := List.length_eq_zero.mp (Nat.le_zero.mp hl)
      subst this
      exact payloadSpec_nil
  | succ fuel ih =>
      intro l hl
      cases l with
      | nil => exact payloadSpec_nil
      | cons a t =>
          have hlen : ((a :: t).drop 32).length ≤ fuel := by
            simp only [List.length_drop]
            simp only [List.length_cons] at hl ⊢
            omega
          obtain ⟨pls, h1, h2, h3⟩ := ih ((a :: t).drop 32) hlen
          refine ⟨(a :: t).take 32 :: pls, ?_, ?_, ?_⟩
          · show mkRecord ((a :: t).take 32) :: fragSplitGo fuel ((a :: t).drop 32) =
              ((a :: t).take 32 :: pls).map mkRecord
            rw [List.map_cons, h1]
          · rw [List.flatten_cons, h2, List.take_append_drop]
          · intro pl hpl
            rcases List.mem_cons.mp hpl with h | h
            · subst h
              simp [List.length_take]
            · have := h3 pl h
              have hd : ((a :: t).drop 32).length ≤ (a :: t).length := by
                simp only [List.length_drop]
                omega
              omega

theorem fragRandomGo_payloads (fuel : Nat) :
    ∀ (i : Nat) (rs : Nat → Nat) (l : List Nat), l.length ≤ fuel →
      PayloadSpec (fragRandomGo fuel i rs l).1 l ∧
        (fragRandomGo fuel i rs l).2 = [] := by
  induction fuel with
  | zero =>
      intro i rs l hl
      have : l = [] := List.length_eq_zero.mp (Nat.le_zero.mp hl)
      subst this
      exact ⟨payloadSpec_nil, rfl⟩
  | succ fuel ih =>
      intro i rs l hl
      cases l with
      | nil => exact ⟨payloadSpec_nil, rfl⟩
      | cons a t =>
          set n := rs i % (a :: t).length + 1 with hn
          have hlen : ((a :: t).drop n).length ≤ fuel := by
            simp only [List.length_drop]
            simp only [List.length_cons] at hl ⊢
            omega
          obtain ⟨⟨pls, h1, h2, h3⟩, h4⟩ := ih (i + 1) rs ((a :: t).drop n) hlen
          constructor
          · refine ⟨(a :: t).take n :: pls, ?_, ?_, ?_⟩
            · show mkRecord ((a :: t).take n) ::
                  (fragRandomGo fuel (i + 1) rs ((a :: t).drop n)).1 =
                ((a :: t).take n :: pls).map mkRecord
              rw [List.map_cons, h1]
            · rw [List.flatten_cons, h2, List.take_append_drop]
            · intro pl hpl
              rcases List.mem_cons.mp hpl with h | h
              · subst h
                simp [List.length_take]
              · have := h3 pl h
                have hd : ((a :: t).drop n).length ≤ (a :: t).length := by
                  simp only [List.length_drop]
                  omega
                omega
          · show (fragRandomGo fuel (i + 1) rs ((a :: t).drop n)).2 = []
            exact h4

theorem extractSniGo_le (fuel : Nat) :
    ∀ (data : List Nat) (start s e : Nat),
      extractSniGo fuel data start = some (s, e) → s ≤ e := by
  induction fuel with
  | zero => intro data start s e h; simp [extractSniGo] at h
  | succ fuel ih =>
      intro data start s e h
      simp only [extractSniGo] at h
      rcases hf : findPair00 (data.drop start) with _ | p
      · rw [hf] at h; exact absurd h (by simp)
      · rw [hf] at h
        simp only at h
        split at h
        · split at h
          · rcases Option.some.injEq _ _ ▸ h with h'
            have := Option.some.inj h
            have hs : s = start + p + 9 := (Prod.mk.injEq _ _ _ _ ▸ this).1.symm
            have he : e = start + p + 9 + be2At data (start + p + 7) :=
              (Prod.mk.injEq _ _ _ _ ▸ this).2.symm
            omega
          · exact ih data (start + p + 1) s e h
        · exact absurd h (by simp)

theorem fragSni_eq_of_none (data : List Nat)
    (hx : extractSniPosition data = none) : fragSni data = fragSplit data := by
  unfold fragSni
  rw [hx]

theorem fragSni_eq_of_extract (data : List Nat) (s e : Nat)
    (hx : extractSniPosition data = some (s, e)) :
    fragSni data =
      [mkRecord (data.take s),
        mkRecord (((data.drop s).take (e - s)).take
          ((((data.drop s).take (e - s)).length + 1) / 2)),
        mkRecord (((data.drop s).take (e - s)).drop
          ((((data.drop s).take (e - s)).length + 1) / 2)),
        mkRecord (data.drop e)] := by
  unfold fragSni
  rw [hx]

theorem four_piece_concat (data S : List Nat) (s e m : Nat) (hse : s ≤ e)
    (hS : S = (data.drop s).take (e - s)) :
    data.take s ++ (S.take m ++ (S.drop m ++ (data.drop e ++ []))) = data := by
  have hdd : (data.drop s).drop (e - s) = data.drop e := by
    rw [List.drop_drop]
    congr 1
    omega
  have hsp : S ++ data.drop e = data.drop s := by
    rw [hS, ← hdd]
    exact List.take_append_drop _ _
  calc data.take s ++ (S.take m ++ (S.drop m ++ (data.drop e ++ [])))
      = data.take s ++ (S.take m ++ (S.drop m ++ data.drop e)) := by
        rw [List.append_nil]
    _ = data.take s ++ ((S.take m ++ S.drop m) ++ data.drop e) := by
        rw [List.append_assoc]
    _ = data.take s ++ (S ++ data.drop e) := by rw [List.take_append_drop]
    _ = data.take s ++ data.drop s := by rw [hsp]
    _ = data := List.take_append_drop _ _

theorem fragSni_payloads (data : List Nat) : PayloadSpec (fragSni data) data := by
  rcases hx : extractSniPosition data with _ | ⟨s, e⟩
  · rw [fragSni_eq_of_none data hx]
    exact fragSplitGo_payloads data.length data le_rfl
  · have hse : s ≤ e := extractSniGo_le _ data 0 s e hx
    rw [fragSni_eq_of_extract data s e hx]
    refine ⟨[data.take s,
        ((data.drop s).take (e - s)).take
          ((((data.drop s).take (e - s)).length + 1) / 2),
        ((data.drop s).take (e - s)).drop
          ((((data.drop s).take (e - s)).length + 1) / 2),
        data.drop e], rfl, ?_, ?_⟩
    · simp only [List.flatten_cons, List.flatten_nil]
      exact four_piece_concat data _ s e _ hse rfl
    · intro pl hpl
      have hs2 : ((data.drop s).take (e - s)).length ≤ data.length := by
        simp only [List.length_take, List.length_drop]
        omega
      simp only [List.mem_cons, List.not_mem_nil, or_false] at hpl
      rcases hpl with h | h | h | h <;> subst h
      · simp only [List.length_take]
        omega
      · simp only [List.length_take] at hs2 ⊢
        omega
      · simp only [List.length_drop, List.length_take] at hs2 ⊢
        omega
      · simp only [List.length_drop]
        omega

theorem fragRandom_payloads (data : List Nat) (rs : Nat → Nat) :
    PayloadSpec (fragRandom data rs).1 data ∧ (fragRandom data rs).2 = [] := by
  unfold fragRandom
  rcases hf : data.findIdx? (fun b => b == 0) with _ | i
  · exact fragRandomGo_payloads data.length 0 rs data le_rfl
  · obtain ⟨⟨pls, h1, h2, h3⟩, h4⟩ :=
      fragRandomGo_payloads (data.drop (i + 1)).length 0 rs (data.drop (i + 1)) le_rfl
    constructor
    · refine ⟨data.take (i + 1) :: pls, ?_, ?_, ?_⟩
      · simp only [List.map_cons]
        exact congrArg _ h1
      · simp [h2, List.take_append_drop]
      · intro pl hpl
        rcases List.mem_cons.mp hpl with h | h
        · subst h
          simp [List.length_take]
        · have := h3 pl h
          have hd : (data.drop (i + 1)).length ≤ data.length := by
            simp [List.length_drop]
          omega
    · exact h4

theorem fragment_payloads (m : FragMethod) (data : List Nat) (rs : Nat → Nat) :
    PayloadSpec (fragment m data rs).1 data := by
  cases m with
  | random => exact (fragRandom_payloads data rs).1
  | sni => exact fragSni_payloads data
  | split => exact fragSplitGo_payloads data.length data le_rfl
  | splitJitter => exact fragSplitGo_payloads data.length data le_rfl

theorem fragment_nil (m : FragMethod) (rs : Nat → Nat) :
    fragment m [] rs = ([], []) := by
  cases m <;> rfl

/-- C1: for every fragmentation method and every first TLS payload `data`
(at most the 2048 bytes read after the 5-byte record header), the emitted
fragment list consists of records of the shape `16 03 04 LL LL <payload>`,
concatenating the fragment payloads (dropping each 5-byte header) yields
exactly the original `data`, and empty `data` produces no fragments, the
caller then transmitting `head + data` unmodified. -/
theorem fragment_roundtrip (m : FragMethod) (head data : List Nat)
    (rs : Nat → Nat) (hlen : data.length ≤ 2048) :
    (∀ p ∈ (fragment m data rs).1, ∃ pl : List Nat,
        pl.length < 65536 ∧ p = mkRecord pl) ∧
      ((fragment m data rs).1.map (fun p => p.drop 5)).flatten = data ∧
      (data = [] → (fragment m data rs).1 = [] ∧
        initialTlsSent m head data rs = head ++ data) := by
  obtain ⟨pls, h1, h2, h3⟩ := fragment_payloads m data rs
  refine ⟨?_, ?_, ?_⟩
  · intro p hp
    rw [h1] at hp
    obtain ⟨pl, hpl, hrec⟩ := List.mem_map.mp hp
    exact ⟨pl, by have := h3 pl hpl; omega, hrec.symm⟩
  · rw [h1, List.map_map]
    have : pls.map ((fun p => p.drop 5) ∘ mkRecord) = pls := by
      have heq : ∀ pl ∈ pls, ((fun p : List Nat => p.drop 5) ∘ mkRecord) pl = id pl := by
        intro pl _
        simp [mkRecord_drop_five]
      rw [List.map_congr_left heq, List.map_id]
    rw [this, h2]
  · intro hd
    subst hd
    have hfe : fragment m [] rs = ([], []) := fragment_nil m rs
    refine ⟨by rw [hfe], ?_⟩
    simp [initialTlsSent, hfe]

/-- Witness for C1 at a concrete input: the `sni` method on a 12-byte
ClientHello-like body containing a valid SNI window. -/
theorem fragment_roundtrip_witness :
    ([0, 0, 0, 8, 0, 6, 9, 0, 3, 97, 98, 99] : List Nat).length ≤ 2048 ∧
      ((∀ p ∈ (fragment .sni [0, 0, 0, 8, 0, 6, 9, 0, 3, 97, 98, 99]
          (fun _ => 0)).1, ∃ pl : List Nat,
          pl.length < 65536 ∧ p = mkRecord pl) ∧
        ((fragment .sni [0, 0, 0, 8, 0, 6, 9, 0, 3, 97, 98, 99]
          (fun _ => 0)).1.map (fun p => p.drop 5)).flatten =
          [0, 0, 0, 8, 0, 6, 9, 0, 3, 97, 98, 99] ∧
        (([0, 0, 0, 8, 0, 6, 9, 0, 3, 97, 98, 99] : List Nat) = [] →
          (fragment .sni [0, 0, 0, 8, 0, 6, 9, 0, 3, 97, 98, 99]
            (fun _ => 0)).1 = [] ∧
          initialTlsSent .sni [22, 3, 1, 0, 12]
            [0, 0, 0, 8, 0, 6, 9, 0, 3, 97, 98, 99] (fun _ => 0) =
            [22, 3, 1, 0, 12] ++ [0, 0, 0, 8, 0, 6, 9, 0, 3, 97, 98, 99])) :=
  ⟨by decide, fragment_roundtrip .sni [22, 3, 1, 0, 12]
    [0, 0, 0, 8, 0, 6, 9, 0, 3, 97, 98, 99] (fun _ => 0) (by decide)⟩

/-- C5: for the `sni` method, whenever `_extract_sni_position` locates a
window `(s, e)` that fits within `data` and has server-name length
`n = e - s > 0`, the fragmenter emits exactly four records — the pre-SNI
bytes, the first `⌈n/2⌉` bytes of the SNI, the remaining `⌊n/2⌋` bytes of
the SNI, and the post-SNI bytes — each wrapped in a `16 03 04 <len>`
header. -/
theorem sni_four_records (data : List Nat) (s e : Nat)
    (hx : extractSniPosition data = some (s, e)) (he : e ≤ data.length)
    (hpos : s < e) :
    fragSni data =
      [mkRecord (data.take s),
        mkRecord ((data.drop s).take ((e - s + 1) / 2)),
        mkRecord (((data.drop s).take (e - s)).drop ((e - s + 1) / 2)),
        mkRecord (data.drop e)] ∧
      ((data.drop s).take ((e - s + 1) / 2)).length = (e - s + 1) / 2 ∧
      (((data.drop s).take (e - s)).drop ((e - s + 1) / 2)).length =
        (e - s) / 2 := by
  have hlen_sni : ((data.drop s).take (e - s)).length = e - s := by
    simp only [List.length_take, List.length_drop]
    omega
  have htt : ((data.drop s).take (e - s)).take ((e - s + 1) / 2) =
      (data.drop s).take ((e - s + 1) / 2) := by
    rw [List.take_take]
    congr 1
    omega
  refine ⟨?_, ?_, ?_⟩
  · rw [fragSni_eq_of_extract data s e hx, hlen_sni, htt]
  · simp only [List.length_take, List.length_drop]
    omega
  · simp only [List.length_drop, hlen_sni]
    omega

/-- Witness for C5: a 12-byte body whose SNI window is `(9, 12)`, name
length 3, split into 2 + 1 bytes. -/
theorem sni_four_records_witness :
    extractSniPosition [0, 0, 0, 8, 0, 6, 9, 0, 3, 97, 98, 99] = some (9, 12) ∧
      12 ≤ ([0, 0, 0, 8, 0, 6, 9, 0, 3, 97, 98, 99] : List Nat).length ∧
      9 < 12 ∧
      (fragSni [0, 0, 0, 8, 0, 6, 9, 0, 3, 97, 98, 99] =
        [mkRecord (([0, 0, 0, 8, 0, 6, 9, 0, 3, 97, 98, 99] : List Nat).take 9),
          mkRecord ((([0, 0, 0, 8, 0, 6, 9, 0, 3, 97, 98, 99] : List Nat).drop 9).take
            ((12 - 9 + 1) / 2)),
          mkRecord (((([0, 0, 0, 8, 0, 6, 9, 0, 3, 97, 98, 99] : List Nat).drop 9).take
            (12 - 9)).drop ((12 - 9 + 1) / 2)),
          mkRecord (([0, 0, 0, 8, 0, 6, 9, 0, 3, 97, 98, 99] : List Nat).drop 12)] ∧
        ((([0, 0, 0, 8, 0, 6, 9, 0, 3, 97, 98, 99] : List Nat).drop 9).take
          ((12 - 9 + 1) / 2)).length = (12 - 9 + 1) / 2 ∧
        (((([0, 0, 0, 8, 0, 6, 9, 0, 3, 97, 98, 99] : List Nat).drop 9).take
          (12 - 9)).drop ((12 - 9 + 1) / 2)).length = (12 - 9) / 2) :=
  ⟨by decide, by decide, by decide,
    sni_four_records [0, 0, 0, 8, 0, 6, 9, 0, 3, 97, 98, 99] 9 12
      (by decide) (by decide) (by decide)⟩

/-- C6 counterexample: in `[0, 0, 0, 5, 0, 3, 65, 0, 0]` the only candidate
SNI position (`pos = 0`, the sole one with `pos + 9 ≤ len`) has
server-name length 0, yet `_extract_sni_position` accepts it and the `sni`
method emits four records around the empty SNI instead of falling back to
the `split` method's single 9-byte record. -/
theorem sni_zero_name_counterexample :
    extractSniPosition [0, 0, 0, 5, 0, 3, 65, 0, 0] = some (9, 9) ∧
      fragSni [0, 0, 0, 5, 0, 3, 65, 0, 0] =
        [mkRecord [0, 0, 0, 5, 0, 3, 65, 0, 0], mkRecord [], mkRecord [],
          mkRecord []] ∧
      fragSplit [0, 0, 0, 5, 0, 3, 65, 0, 0] =
        [mkRecord [0, 0, 0, 5, 0, 3, 65, 0, 0]] ∧
      fragSni [0, 0, 0, 5, 0, 3, 65, 0, 0] ≠
        fragSplit [0, 0, 0, 5, 0, 3, 65, 0, 0] :=
  ⟨by decide, by decide, by decide, by decide⟩

/-- C6 amended: a candidate SNI position whose server-name length field is 0
is accepted like any other, and the fragmenter emits four records in which
the two SNI pieces are empty; the fallback to `split` happens only when
`_extract_sni_position` finds no candidate satisfying the length
equations. -/
theorem sni_zero_name_four_records (data : List Nat) (s : Nat)
    (hx : extractSniPosition data = some (s, s)) :
    fragSni data =
      [mkRecord (data.take s), mkRecord [], mkRecord [],
        mkRecord (data.drop s)] := by
  rw [fragSni_eq_of_extract data s s hx]
  simp

/-- Witness for the amended C6 at the counterexample input. -/
theorem sni_zero_name_four_records_witness :
    extractSniPosition [0, 0, 0, 5, 0, 3, 65, 0, 0] = some (9, 9) ∧
      fragSni [0, 0, 0, 5, 0, 3, 65, 0, 0] =
        [mkRecord (([0, 0, 0, 5, 0, 3, 65, 0, 0] : List Nat).take 9),
          mkRecord [], mkRecord [],
          mkRecord (([0, 0, 0, 5, 0, 3, 65, 0, 0] : List Nat).drop 9)] :=
  ⟨by decide, sni_zero_name_four_records [0, 0, 0, 5, 0, 3, 65, 0, 0] 9
    (by decide)⟩

theorem ruleMatch_iff (p d : List Char) (hp : p ≠ []) :
    ruleMatch p d = true ↔
      d = p ∨ (∃ q, p = '*' :: '.' :: q ∧ (p.drop 1) <:+ d) ∨
        ('.' :: p) <:+ d := by
  match p, hp with
  | a :: t, _ =>
    by_cases hstar : ['*', '.'].isPrefixOf (a :: t) = true
    · obtain ⟨q, hq⟩ : ∃ q, a :: t = '*' :: '.' :: q := by
        cases t with
        | nil => simp [List.isPrefixOf] at hstar
        | cons b u =>
            simp [List.isPrefixOf] at hstar
            exact ⟨u, by rw [hstar.1, hstar.2]⟩
      rw [hq]
      rw [hq] at hstar
      have hlhs : ruleMatch ('*' :: '.' :: q) d = ('.' :: q).isSuffixOf d := by
        simp [ruleMatch, hstar]
      rw [hlhs]
      constructor
      · intro h
        exact Or.inr (Or.inl ⟨q, rfl, List.isSuffixOf_iff_suffix.mp h⟩)
      · rintro (rfl | ⟨q', hq', hsuf⟩ | hsuf)
        · exact List.isSuffixOf_iff_suffix.mpr ⟨['*'], rfl⟩
        · have : q' = q := by
            injection hq' with h1 h2
            injection h2 with h3 h4
            exact h4.symm
          subst this
          exact List.isSuffixOf_iff_suffix.mpr hsuf
        · have hsub : ('.' :: q) <:+ ('.' :: '*' :: '.' :: q) := ⟨['.', '*'], rfl⟩
          exact List.isSuffixOf_iff_suffix.mpr (hsub.trans hsuf)
    · have hnostar : ∀ q, a :: t ≠ '*' :: '.' :: q := by
        intro q hq
        rw [hq] at hstar
        simp [List.isPrefixOf] at hstar
      have hlhs : ruleMatch (a :: t) d =
          (d == a :: t || ('.' :: a :: t).isSuffixOf d) := by
        simp [ruleMatch, hstar]
      rw [hlhs]
      simp only [Bool.or_eq_true, beq_iff_eq, List.isSuffixOf_iff_suffix]
      constructor
      · rintro (h | h)
        · exact Or.inl h
        · exact Or.inr (Or.inr h)
      · rintro (h | ⟨q, hq, _⟩ | h)
        · exact Or.inl h
        · exact absurd hq (hnostar q)
        · exact Or.inr h

theorem ruleDecideGo_cons (r : Rule) (rest : List Rule) (d : List Char) :
    ruleDecideGo (r :: rest) d =
      if ruleMatch (r.pattern.map Char.toLower) d then ruleDecideGo [r] d
      else ruleDecideGo rest d := by
  cases h : ruleMatch (r.pattern.map Char.toLower) d <;>
    simp [ruleDecideGo, h]

/-- C4 counterexample: the claim asserts that pattern `*.example.com`
matches domain `example.com`, but `_match` tests
`"example.com".endswith(".example.com")`, which is false — a `force` rule
on `*.example.com` leaves `example.com` undecided. -/
theorem rule_wildcard_counterexample :
    ruleMatch ("*.example.com".toList) ("foo.example.com".toList) = true ∧
      ruleMatch ("*.example.com".toList) ("example.com".toList) = false ∧
      ruleDecide [⟨"*.example.com".toList, "force".toList, none⟩]
        ("example.com".toList) = (none, none) :=
  ⟨by decide, by decide, by decide⟩

/-- C4 amended: rule matching satisfies: `*.example.com` matches
`foo.example.com` but does NOT match the bare domain `example.com`;
`example.com` matches `example.com` and `sub.example.com`; `example` does
not match `myexample.com` — and, for every nonempty pattern, a rule matches
iff `pattern == domain`, or `pattern` starts with `*.` and `domain` ends
with `pattern[1:]`, or `domain` ends with `"." + pattern` (empty patterns
never match); the first matching rule in list order decides. -/
theorem rule_matching_semantics :
    (∀ p d : List Char, p ≠ [] →
      (ruleMatch p d = true ↔
        d = p ∨ (∃ q, p = '*' :: '.' :: q ∧ (p.drop 1) <:+ d) ∨
          ('.' :: p) <:+ d)) ∧
      (∀ d : List Char, ruleMatch [] d = false) ∧
      ruleMatch ("*.example.com".toList) ("foo.example.com".toList) = true ∧
      ruleMatch ("*.example.com".toList) ("example.com".toList) = false ∧
      ruleMatch ("example.com".toList) ("example.com".toList) = true ∧
      ruleMatch ("example.com".toList) ("sub.example.com".toList) = true ∧
      ruleMatch ("example".toList) ("myexample.com".toList) = false ∧
      (∀ (r : Rule) (rest : List Rule) (d : List Char),
        ruleDecide (r :: rest) d =
          if ruleMatch (r.pattern.map Char.toLower) (d.map Char.toLower) then
            ruleDecide [r] d
          else ruleDecide rest d) := by
  refine ⟨ruleMatch_iff, fun d => rfl, by decide, by decide, by decide,
    by decide, by decide, fun r rest d => ?_⟩
  simp only [ruleDecide]
  exact ruleDecideGo_cons r rest (d.map Char.toLower)

/-- Witness for the amended C4: the general matching characterisation
applied at pattern `example.com` and domain `sub.example.com`. -/
theorem rule_matching_semantics_witness :
    ("example.com".toList ≠ ([] : List Char)) ∧
      (ruleMatch ("example.com".toList) ("sub.example.com".toList) = true ↔
        "sub.example.com".toList = "example.com".toList ∨
          (∃ q, "example.com".toList = '*' :: '.' :: q ∧
            ("example.com".toList.drop 1) <:+ "sub.example.com".toList) ∨
          ('.' :: "example.com".toList) <:+ "sub.example.com".toList) :=
  ⟨by decide, (rule_matching_semantics.1) ("example.com".toList)
    ("sub.example.com".toList) (by decide)⟩

/-- C7 counterexample: with the file lines `Example.com` and `foo.bar`
loaded, the query `EXAMPLE.COM` is not blocked — `is_blocked` never
lowercases the query — although its claim-normalised form `example.com` is
exactly in the set; and the query `foo.www.bar` IS blocked — `replace`
removes `www.` anywhere, not only as a prefix — although neither its
claim-normalised form `foo.www.bar` nor any label suffix of it is in the
set. -/
theorem blacklist_strict_counterexample :
    loadBlacklist ["Example.com".toList, "foo.bar".toList] =
      ["example.com".toList, "foo.bar".toList] ∧
      isBlockedStrict (loadBlacklist ["Example.com".toList, "foo.bar".toList])
        ("EXAMPLE.COM".toList) = false ∧
      (loadBlacklist ["Example.com".toList, "foo.bar".toList]).contains
        (claimNormalise ("EXAMPLE.COM".toList)) = true ∧
      isBlockedStrict (loadBlacklist ["Example.com".toList, "foo.bar".toList])
        ("foo.www.bar".toList) = true ∧
      claimNormalise ("foo.www.bar".toList) = "foo.www.bar".toList ∧
      (loadBlacklist ["Example.com".toList, "foo.bar".toList]).contains
        ("foo.www.bar".toList) = false ∧
      (loadBlacklist ["Example.com".toList, "foo.bar".toList]).contains
        ("www.bar".toList) = false ∧
      (loadBlacklist ["Example.com".toList, "foo.bar".toList]).contains
        ("bar".toList) = false :=
  ⟨by decide, by decide, by decide, by decide, by decide, by decide,
    by decide, by decide⟩

/-- C7 amended: the file-backed strict blacklist's `is_blocked` returns
true iff the queried domain with every occurrence of `www.` removed (the
query is not lowercased) is exactly in the loaded set, or some strict
parent-domain suffix of its dot-separated labels (excluding the empty
suffix) is in the set — entries having been lowercased, with every `www.`
occurrence removed, at load time. -/
theorem blacklist_strict_iff (bset : List (List Char)) (domain : List Char) :
    isBlockedStrict bset domain = true ↔
      replaceWWW domain ∈ bset ∨
        ∃ i, 1 ≤ i ∧ i < ((replaceWWW domain).splitOn '.').length ∧
          List.intercalate ['.']
            (((replaceWWW domain).splitOn '.').drop i) ∈ bset := by
  unfold isBlockedStrict
  by_cases h : bset.contains (replaceWWW domain) = true
  · simp only [h, if_true, true_iff]
    exact Or.inl (List.elem_iff.mp h)
  · have h' : replaceWWW domain ∉ bset := fun hm => h (List.elem_iff.mpr hm)
    simp only [h, if_false, Bool.ite_eq_true_distrib]
    rw [if_neg (by simp [h])]
    rw [List.any_eq_true]
    constructor
    · rintro ⟨i, hi, hc⟩
      rcases List.mem_range'_1.mp hi with ⟨h1, h2⟩
      refine Or.inr ⟨i, h1, ?_, List.elem_iff.mp hc⟩
      omega
    · rintro (hm | ⟨i, h1, h2, hm⟩)
      · exact absurd hm h'
      · exact ⟨i, List.mem_range'_1.mpr ⟨h1, by omega⟩, List.elem_iff.mpr hm⟩

theorem checkDomain_disjoint (st : AutoState) (dom : List Char)
    (o : ProbeOutcome) (h : AutoDisjoint st) :
    AutoDisjoint (checkDomain st dom o).1 := by
  unfold checkDomain
  by_cases hg : (st.blockedSet.contains dom ||
      st.whitelistSet.contains dom) = true
  · rw [if_pos hg]
    exact h
  · rw [if_neg hg]
    have hb : dom ∉ st.blockedSet := by
      intro hm
      refine hg (by simp only [Bool.or_eq_true]; exact Or.inl (List.elem_iff.mpr hm))
    have hw : dom ∉ st.whitelistSet := by
      intro hm
      refine hg (by simp only [Bool.or_eq_true]; exact Or.inr (List.elem_iff.mpr hm))
    cases o with
    | success =>
        intro d hd
        rcases hd with ⟨hdb, hdw⟩
        simp only [probeUpdate] at hdb hdw
        rcases List.mem_cons.mp hdw with rfl | hdw'
        · exact hb hdb
        · exact h d ⟨hdb, hdw'⟩
    | urlError reason =>
        by_cases hr : listInfix handshakeMsg reason = true
        · intro d hd
          rcases hd with ⟨hdb, hdw⟩
          simp only [probeUpdate, if_pos hr] at hdb hdw
          rcases List.mem_cons.mp hdb with rfl | hdb'
          · exact hw hdw
          · exact h d ⟨hdb', hdw⟩
        · intro d hd
          simp only [probeUpdate, if_neg hr] at hd
          exact h d hd
    | otherError =>
        intro d hd
        rcases hd with ⟨hdb, hdw⟩
        simp only [probeUpdate] at hdb hdw
        rcases List.mem_cons.mp hdw with rfl | hdw'
        · exact hb hdb
        · exact h d ⟨hdb, hdw'⟩

theorem runChecks_disjoint (steps : List (List Char × ProbeOutcome)) :
    ∀ st : AutoState, AutoDisjoint st → AutoDisjoint (runChecks st steps) := by
  induction steps with
  | nil => intro st h; exact h
  | cons p rest ih =>
      intro st h
      exact ih _ (checkDomain_disjoint st p.1 p.2 h)

theorem checkDomain_mono (st : AutoState) (dom : List Char) (o : ProbeOutcome)
    (d : List Char) :
    (d ∈ st.blockedSet → d ∈ ((checkDomain st dom o).1).blockedSet) ∧
    (d ∈ st.whitelistSet → d ∈ ((checkDomain st dom o).1).whitelistSet) := by
  unfold checkDomain
  by_cases hg : (st.blockedSet.contains dom ||
      st.whitelistSet.contains dom) = true
  · rw [if_pos hg]
    exact ⟨id, id⟩
  · rw [if_neg hg]
    cases o with
    | success =>
        constructor
        · intro hdb
          simpa [probeUpdate] using hdb
        · intro hdw
          simp only [probeUpdate]
          exact List.mem_cons_of_mem _ hdw
    | urlError reason =>
        by_cases hr : listInfix handshakeMsg reason = true
        · constructor
          · intro hdb
            simp only [probeUpdate, if_pos hr]
            exact List.mem_cons_of_mem _ hdb
          · intro hdw
            simpa [probeUpdate, if_pos hr] using hdw
        · constructor <;> intro hx <;>
            simpa [probeUpdate, if_neg hr] using hx
    | otherError =>
        constructor
        · intro hdb
          simpa [probeUpdate] using hdb
        · intro hdw
          simp only [probeUpdate]
          exact List.mem_cons_of_mem _ hdw

/-- C8 counterexample: a `URLError` probe failure whose reason does not
contain `"handshake operation timed out"` (here a connection-refused
failure) leaves the oracle state completely unchanged — the domain is added
to neither set — although the probe ran; the claim instead says any
non-handshake-timeout failure adds the domain to the whitelist set. -/
theorem auto_urlerror_counterexample :
    checkDomain initialAutoState ("x.test".toList)
        (.urlError ("[Errno 111] Connection refused".toList)) =
      (initialAutoState, true) ∧
      (checkDomain initialAutoState ("x.test".toList)
        (.urlError ("[Errno 111] Connection refused".toList))).1.whitelistSet =
        [] :=
  ⟨by decide, by decide⟩

/-- C8 amended: for a domain not yet classified, the probe outcome is
handled as: success adds the domain to the whitelist set; a `URLError`
whose reason contains `"handshake operation timed out"` adds it to the
blocked set and appends it to the backing blacklist file; a `URLError`
without that reason changes nothing; any other failure adds it to the
whitelist set. -/
theorem auto_check_classification (st : AutoState) (domain : List Char)
    (h : (st.blockedSet.contains domain ||
      st.whitelistSet.contains domain) = false) :
    checkDomain st domain .success =
        (AutoState.mk st.blockedSet (domain :: st.whitelistSet)
          st.fileAppends, true) ∧
      (∀ reason : List Char, listInfix handshakeMsg reason = true →
        checkDomain st domain (.urlError reason) =
          (AutoState.mk (domain :: st.blockedSet) st.whitelistSet
            (st.fileAppends ++ [domain]), true)) ∧
      (∀ reason : List Char, listInfix handshakeMsg reason = false →
        checkDomain st domain (.urlError reason) = (st, true)) ∧
      checkDomain st domain .otherError =
        (AutoState.mk st.blockedSet (domain :: st.whitelistSet)
          st.fileAppends, true) := by
  have hg : ¬(st.blockedSet.contains domain ||
      st.whitelistSet.contains domain) = true := by
    rw [h]
    exact Bool.false_ne_true
  refine ⟨?_, ?_, ?_, ?_⟩
  · unfold checkDomain
    rw [if_neg hg]
    rfl
  · intro reason hr
    unfold checkDomain
    rw [if_neg hg]
    simp only [probeUpdate, if_pos hr]
  · intro reason hr
    unfold checkDomain
    rw [if_neg hg]
    simp only [probeUpdate]
    rw [if_neg (by simp [hr])]
  · unfold checkDomain
    rw [if_neg hg]
    rfl

/-- Witness for the amended C8 at the fresh state and domain `x.test`. -/
theorem auto_check_classification_witness :
    (initialAutoState.blockedSet.contains ("x.test".toList) ||
      initialAutoState.whitelistSet.contains ("x.test".toList)) = false ∧
      (checkDomain initialAutoState ("x.test".toList) .success =
          (AutoState.mk initialAutoState.blockedSet
            ("x.test".toList :: initialAutoState.whitelistSet)
            initialAutoState.fileAppends, true) ∧
        (∀ reason : List Char, listInfix handshakeMsg reason = true →
          checkDomain initialAutoState ("x.test".toList) (.urlError reason) =
            (AutoState.mk ("x.test".toList :: initialAutoState.blockedSet)
              initialAutoState.whitelistSet
              (initialAutoState.fileAppends ++ ["x.test".toList]), true)) ∧
        (∀ reason : List Char, listInfix handshakeMsg reason = false →
          checkDomain initialAutoState ("x.test".toList) (.urlError reason) =
            (initialAutoState, true)) ∧
        checkDomain initialAutoState ("x.test".toList) .otherError =
          (AutoState.mk initialAutoState.blockedSet
            ("x.test".toList :: initialAutoState.whitelistSet)
            initialAutoState.fileAppends, true)) :=
  ⟨by decide, auto_check_classification initialAutoState ("x.test".toList)
    (by decide)⟩

/-- C10: for a domain already present in the adaptive oracle's blocked set
or whitelist set, `check_domain` returns immediately — no probe runs and
neither set nor the backing file changes; set membership is permanent
across any later call, and along every run of calls from the fresh state
the blocked set and the whitelist set stay disjoint. -/
theorem auto_classification_permanent (st : AutoState) (domain : List Char)
    (o : ProbeOutcome)
    (hclass : (st.blockedSet.contains domain ||
      st.whitelistSet.contains domain) = true) :
    checkDomain st domain o = (st, false) ∧
      (∀ (st' : AutoState) (dom' : List Char) (o' : ProbeOutcome)
          (d : List Char),
        (d ∈ st'.blockedSet → d ∈ ((checkDomain st' dom' o').1).blockedSet) ∧
        (d ∈ st'.whitelistSet →
          d ∈ ((checkDomain st' dom' o').1).whitelistSet)) ∧
      (∀ (steps : List (List Char × ProbeOutcome)) (d : List Char),
        ¬(d ∈ (runChecks initialAutoState steps).blockedSet ∧
          d ∈ (runChecks initialAutoState steps).whitelistSet)) := by
  refine ⟨?_, checkDomain_mono, ?_⟩
  · unfold checkDomain
    rw [if_pos hclass]
  · intro steps d
    refine runChecks_disjoint steps initialAutoState ?_ d
    intro d' hd'
    exact absurd hd'.1 (List.not_mem_nil d')

/-- Witness for C10: a state whose blocked set already holds `b.test`. -/
theorem auto_classification_permanent_witness :
    ((AutoState.mk ["b.test".toList] [] []).blockedSet.contains
        ("b.test".toList) ||
      (AutoState.mk ["b.test".toList] [] []).whitelistSet.contains
        ("b.test".toList)) = true ∧
      (checkDomain (AutoState.mk ["b.test".toList] [] []) ("b.test".toList)
          .success = (AutoState.mk ["b.test".toList] [] [], false) ∧
        (∀ (st' : AutoState) (dom' : List Char) (o' : ProbeOutcome)
            (d : List Char),
          (d ∈ st'.blockedSet →
            d ∈ ((checkDomain st' dom' o').1).blockedSet) ∧
          (d ∈ st'.whitelistSet →
            d ∈ ((checkDomain st' dom' o').1).whitelistSet)) ∧
        (∀ (steps : List (List Char × ProbeOutcome)) (d : List Char),
          ¬(d ∈ (runChecks initialAutoState steps).blockedSet ∧
            d ∈ (runChecks initialAutoState steps).whitelistSet))) :=
  ⟨by decide, auto_classification_permanent
    (AutoState.mk ["b.test".toList] [] []) ("b.test".toList) .success
    (by decide)⟩

theorem dnsSet_length_le (c : DnsCacheState) (k : List Char) (exp : Int)
    (addrs : List Nat) : (dnsSet c k exp addrs).length ≤ c.length + 1 := by
  unfold dnsSet
  split
  · simp
  · simp

/-- C9: `DNSCache.resolve` never returns an expired record — the cached
list is returned (flag `true`) only when its stored expiry is strictly in
the future of `now`; otherwise the fresh resolution is returned and, when
the cache already holds `max_entries` entries, the first-inserted entry is
evicted before `(now + ttl, fresh)` is inserted; the capacity bound is
preserved. -/
theorem dns_resolve_spec (c : DnsCacheState) (maxEntries : Nat)
    (ttl now : Int) (k : List Char) (fresh : List Nat)
    (hmax : 1 ≤ maxEntries) (hcap : c.length ≤ maxEntries) :
    ((dnsResolve c maxEntries ttl now k fresh).2.2 = true →
      ∃ exp, dnsGet c k =
          some (exp, (dnsResolve c maxEntries ttl now k fresh).1) ∧
        now < exp) ∧
      ((dnsResolve c maxEntries ttl now k fresh).2.2 = false →
        (dnsResolve c maxEntries ttl now k fresh).1 = fresh ∧
        (dnsResolve c maxEntries ttl now k fresh).2.1 =
          dnsSet (if maxEntries ≤ c.length then c.drop 1 else c) k
            (now + ttl) fresh) ∧
      (c.length = maxEntries →
        (dnsResolve c maxEntries ttl now k fresh).2.2 = false →
        (dnsResolve c maxEntries ttl now k fresh).2.1 =
          dnsSet (c.drop 1) k (now + ttl) fresh) ∧
      (dnsResolve c maxEntries ttl now k fresh).2.1.length ≤ maxEntries := by
  have hmiss1 : (dnsMissPath c maxEntries ttl now k fresh).1 = fresh := rfl
  have hmiss2 : (dnsMissPath c maxEntries ttl now k fresh).2.1 =
      dnsSet (if maxEntries ≤ c.length then c.drop 1 else c) k
        (now + ttl) fresh := rfl
  have hmisslen : (dnsMissPath c maxEntries ttl now k fresh).2.1.length ≤
      maxEntries := by
    rw [hmiss2]
    by_cases hful : maxEntries ≤ c.length
    · rw [if_pos hful]
      have h1 := dnsSet_length_le (c.drop 1) k (now + ttl) fresh
      have h2 : (c.drop 1).length = c.length - 1 := by
        simp [List.length_drop]
      omega
    · rw [if_neg hful]
      have h1 := dnsSet_length_le c k (now + ttl) fresh
      omega
  rcases hg : dnsGet c k with _ | ⟨exp, addrs⟩
  · have hr : dnsResolve c maxEntries ttl now k fresh =
        dnsMissPath c maxEntries ttl now k fresh := by
      unfold dnsResolve
      rw [hg]
    rw [hr]
    refine ⟨?_, ?_, ?_, hmisslen⟩
    · intro hcontra
      exact absurd hcontra (by simp [dnsMissPath])
    · intro _
      exact ⟨hmiss1, hmiss2⟩
    · intro hful _
      rw [hmiss2, if_pos (le_of_eq hful.symm)]
  · by_cases hlt : now < exp
    · have hr : dnsResolve c maxEntries ttl now k fresh = (addrs, c, true) := by
        unfold dnsResolve
        rw [hg]
        exact if_pos hlt
      rw [hr]
      refine ⟨?_, ?_, ?_, hcap⟩
      · intro _
        refine ⟨exp, ?_, hlt⟩
        simp [hg]
      · intro hcontra
        exact absurd hcontra (by simp)
      · intro _ hcontra
        exact absurd hcontra (by simp)
    · have hr : dnsResolve c maxEntries ttl now k fresh =
          dnsMissPath c maxEntries ttl now k fresh := by
        unfold dnsResolve
        rw [hg]
        exact if_neg hlt
      rw [hr]
      refine ⟨?_, ?_, ?_, hmisslen⟩
      · intro hcontra
        exact absurd hcontra (by simp [dnsMissPath])
      · intro _
        exact ⟨hmiss1, hmiss2⟩
      · intro hful _
        rw [hmiss2, if_pos (le_of_eq hful.symm)]

/-- Witness for C9: a full two-entry cache holding an expired record for
`a:443`; resolving `a:443` performs the fresh path, evicting the
first-inserted entry for `b:443`. -/
theorem dns_resolve_spec_witness :
    1 ≤ 2 ∧
      ([DnsEntry.mk "b:443".toList 5 [1], DnsEntry.mk "a:443".toList 7 [2]] :
        DnsCacheState).length ≤ 2 ∧
      (((dnsResolve [DnsEntry.mk "b:443".toList 5 [1],
          DnsEntry.mk "a:443".toList 7 [2]] 2 60 9 "a:443".toList [3]).2.2 =
          true →
        ∃ exp, dnsGet [DnsEntry.mk "b:443".toList 5 [1],
            DnsEntry.mk "a:443".toList 7 [2]] "a:443".toList =
            some (exp, (dnsResolve [DnsEntry.mk "b:443".toList 5 [1],
              DnsEntry.mk "a:443".toList 7 [2]] 2 60 9 "a:443".toList
              [3]).1) ∧ 9 < exp) ∧
        ((dnsResolve [DnsEntry.mk "b:443".toList 5 [1],
            DnsEntry.mk "a:443".toList 7 [2]] 2 60 9 "a:443".toList
            [3]).2.2 = false →
          (dnsResolve [DnsEntry.mk "b:443".toList 5 [1],
            DnsEntry.mk "a:443".toList 7 [2]] 2 60 9 "a:443".toList
            [3]).1 = [3] ∧
          (dnsResolve [DnsEntry.mk "b:443".toList 5 [1],
            DnsEntry.mk "a:443".toList 7 [2]] 2 60 9 "a:443".toList
            [3]).2.1 =
            dnsSet (if 2 ≤ ([DnsEntry.mk "b:443".toList 5 [1],
                DnsEntry.mk "a:443".toList 7 [2]] :
                DnsCacheState).length then
                ([DnsEntry.mk "b:443".toList 5 [1],
                  DnsEntry.mk "a:443".toList 7 [2]] :
                  DnsCacheState).drop 1
              else [DnsEntry.mk "b:443".toList 5 [1],
                DnsEntry.mk "a:443".toList 7 [2]]) "a:443".toList
              (9 + 60) [3]) ∧
        (([DnsEntry.mk "b:443".toList 5 [1],
            DnsEntry.mk "a:443".toList 7 [2]] :
            DnsCacheState).length = 2 →
          (dnsResolve [DnsEntry.mk "b:443".toList 5 [1],
            DnsEntry.mk "a:443".toList 7 [2]] 2 60 9 "a:443".toList
            [3]).2.2 = false →
          (dnsResolve [DnsEntry.mk "b:443".toList 5 [1],
            DnsEntry.mk "a:443".toList 7 [2]] 2 60 9 "a:443".toList
            [3]).2.1 =
            dnsSet (([DnsEntry.mk "b:443".toList 5 [1],
              DnsEntry.mk "a:443".toList 7 [2]] :
              DnsCacheState).drop 1) "a:443".toList (9 + 60) [3]) ∧
        (dnsResolve [DnsEntry.mk "b:443".toList 5 [1],
          DnsEntry.mk "a:443".toList 7 [2]] 2 60 9 "a:443".toList
          [3]).2.1.length ≤ 2) :=
  ⟨by decide, by decide,
    dns_resolve_spec [DnsEntry.mk "b:443".toList 5 [1],
      DnsEntry.mk "a:443".toList 7 [2]] 2 60 9 "a:443".toList [3]
      (by decide) (by decide)⟩

/-- C2 counterexample: two post-parse CONNECT scenarios violate the
exactly-once claim — when the initial TLS head/data reads fail, no counter
is incremented at all (total stays 0); when the connection is decided
blocked and the fragment write to the origin then raises, `total` is
incremented twice and both `blocked` and `errors` are incremented. -/
theorem counters_counterexample :
    httpsCounters ⟨true, true, false, true, true⟩ zeroCounters =
        zeroCounters ∧
      httpsCounters ⟨true, true, true, true, false⟩ zeroCounters =
        ⟨2, 0, 1, 1⟩ :=
  ⟨by decide, by decide⟩

/-- C2 amended: for a connection whose first chunk parsed successfully,
the counters behave as: on the HTTP path, `total` is incremented exactly
once and exactly one of `allowed`/`errors`; on the CONNECT path, a failed
connect or failed `200` write counts `total`+`errors` once; a failure of
the initial TLS head/data reads counts nothing; when the decision is
reached and the subsequent origin write succeeds, `total` and exactly one
of `allowed`/`blocked` are incremented exactly once; when that write
fails, `total` is incremented twice — once with `allowed`/`blocked` and
once more with `errors`. -/
theorem counters_per_scenario :
    (∀ f g : Bool, httpCounters f g zeroCounters =
      (if !f || !g then ⟨1, 0, 0, 1⟩ else ⟨1, 1, 0, 0⟩)) ∧
      (∀ a b c d e : Bool, httpsCounters ⟨a, b, c, d, e⟩ zeroCounters =
        (if !a || !b then ⟨1, 0, 0, 1⟩
         else if !c then zeroCounters
         else if e then (if d then ⟨1, 0, 1, 0⟩ else ⟨1, 1, 0, 0⟩)
         else (if d then ⟨2, 0, 1, 1⟩ else ⟨2, 1, 0, 1⟩))) := by
  refine ⟨fun f g => ?_, fun a b c d e => ?_⟩
  · cases f <;> cases g <;> decide
  · cases a <;> cases b <;> cases c <;> cases d <;> cases e <;> decide

/-- C3: evaluating `_pipe` at a failing input — a client→origin pipe that
moves 100 bytes adds them to the global statistics' `traffic_out` but
leaves the per-connection `ConnectionInfo` counters unchanged, and an
origin→client pipe likewise only reaches the global `traffic_in`, because
the pipe-local `conn_info` is always `None`; the claim requires both the
`StatsSink` and the `ConnectionInfo` to receive these bytes. -/
theorem pipe_conn_info_unchanged :
    pipe [List.replicate 60 7, List.replicate 40 9] true ⟨0, 0⟩ ⟨5, 44⟩ =
        (⟨0, 100⟩, ⟨5, 44⟩) ∧
      pipe [List.replicate 100 1] false ⟨0, 0⟩ ⟨5, 44⟩ =
        (⟨100, 0⟩, ⟨5, 44⟩) ∧
      (∀ (chunks : List (List Nat)) (isOut : Bool) (stats : TrafficStats)
          (info : ConnInfo), (pipe chunks isOut stats info).2 = info) :=
  ⟨by decide, by decide, fun chunks isOut stats info => by
    unfold pipe
    cases isOut <;> rfl⟩

end BlackKittenProxy
